import Mathlib

/-!
Verification of the fixed-capacity in-place string
(`gw::basic_inplace_string<N, CharT>`), shallow-embedded from the two
revisions present in the repository:

* the minimal revision in `src/include/gw/inplace_string.hpp`
  (namespace `GwV1` below where it differs), and
* the richer revision embedded in `src/include/gw/named_type.hpp`
  lines 966-1681 (namespace `GwV2` below, the primary model).

Modelling conventions:

* A character unit is a `Nat`; the zero unit is the terminator.
* The storage of a capacity-`N` string is a `List Nat` of length `N + 1`
  (the C++ member `std::array<value_type, N + 1> m_data`).
* `size_type` arithmetic is `Nat` with an explicit `% W`, `W = 2 ^ 64`,
  wherever the C++ computes a `std::size_t` sum that can wrap
  (e.g. `size() + count`, `index + count`, `size() - 1`); `npos = W - 1`.
* `char_traits::length(data())` is `strLen`: the index of the first zero
  unit, scanning from the front; on a buffer with no zero unit the scan
  stops at the end of the modelled storage (the C++ scan would run past
  the array, which is undefined).
* Writes through `operator[]` / raw pointers at an index beyond the
  storage (undefined in C++) are modelled as no-ops (`List.set`
  semantics); `std::copy` / `std::copy_backward` / `char_traits::copy`
  over a valid range are modelled as writing a snapshot of the source
  range (`memmove` semantics, which is what the overlapping calls in
  `erase` compile to).  A copy whose source range is invalid — first
  past last, so the computed length is negative-as-huge — is a crash:
  `erase` returns an explicit undefined-behavior outcome (`.ub`) there
  instead of fabricating a result.
* A member function that throws is modelled as returning
  `(some err, buffer-at-throw-point)`, so that "no partial write before
  the throw" is a provable property of the translation, not an artifact.
-/

/-- Width of the modelled `std::size_t`. -/
def W : Nat := 2 ^ 64

/-- The two error kinds of the library: `std::length_error`
(`CapacityExceeded`) and `std::out_of_range` (`IndexOutOfRange`). -/
inductive Err : Type
  | length_error : Err
  | out_of_range : Err
deriving DecidableEq, Repr

/-- Result of a throwing constructor / accessor. -/
inductive Res (α : Type) : Type
  | ok (val : α) : Res α
  | err (e : Err) : Res α
deriving DecidableEq, Repr

/-- Read one unit of a buffer; out-of-range reads give the zero unit. -/
def bufGet : List Nat → Nat → Nat
  | [], _ => 0
  | c :: _, 0 => c
  | _ :: rest, n + 1 => bufGet rest n

/-- Write one unit of a buffer; out-of-range writes are no-ops. -/
def bufSet : List Nat → Nat → Nat → List Nat
  | [], _, _ => []
  | _ :: rest, 0, v => v :: rest
  | c :: rest, n + 1, v => c :: bufSet rest n v

/-- Write the units `vs` at consecutive positions starting at `i`. -/
def writeRange : List Nat → Nat → List Nat → List Nat
  | b, _, [] => b
  | b, i, v :: vs => writeRange (bufSet b i v) (i + 1) vs

/-- Read `len` consecutive units starting at position `i`. -/
def readRange : List Nat → Nat → Nat → List Nat
  | _, _, 0 => []
  | b, i, len + 1 => bufGet b i :: readRange b (i + 1) len

/-- Function `char_traits::length` on the buffer: index of the first zero unit. -/
def strLen : List Nat → Nat
  | [] => 0
  | c :: rest => if c = 0 then 0 else strLen rest + 1

/-- The logical character sequence: the units before the terminator.
This is the string viewed through `operator std::basic_string_view`
(`{data(), size()}`). -/
def logicalStr (b : List Nat) : List Nat := readRange b 0 (strLen b)

/-! The operations of `basic_inplace_string`, named_type.hpp revision -/

/-- Constant `npos`: `static_cast<size_type>(-1)`. -/
def GwV2.npos : Nat := W - 1

/-- Method `max_size()`: always the capacity parameter `N`. -/
def GwV2.max_size (N : Nat) : Nat := N

/-- Method `capacity()`: `return max_size();`. -/
def GwV2.capacity (N : Nat) : Nat := GwV2.max_size N

/-- The defaulted default constructor: `m_data` has no initializer in this
revision, so the buffer is exactly the storage the object occupies
(indeterminate at runtime); the model takes that storage as input. -/
def GwV2.ctor_default (init : List Nat) : List Nat := init

/-- Value initialization `basic_inplace_string<N>{}`: zero-initializes the
whole object. -/
def GwV2.value_init (N : Nat) : List Nat := List.replicate (N + 1) 0

/-- Constructor from `count` copies of `ch`: checks `count > max_size()`
then `std::fill_n(begin(), count, ch)` over the `m_data{}`-initialized
buffer. -/
def GwV2.ctor_count (N count ch : Nat) : Res (List Nat) :=
  if count > N then .err .length_error
  else .ok (writeRange (List.replicate (N + 1) 0) 0 (List.replicate count ch))

/-- Constructor from a null-terminated pointer: computes
`traits_type::length(str)`, checks it against `max_size()`, then copies. -/
def GwV2.ctor_ptr (N : Nat) (str : List Nat) : Res (List Nat) :=
  let str_size := strLen str
  if str_size > N then .err .length_error
  else .ok (writeRange (List.replicate (N + 1) 0) 0 (readRange str 0 str_size))

/-- Constructor from pointer plus count (also the target of the view and
range constructors): checks `count > max_size()` then copies `count`
units. -/
def GwV2.ctor_ptr_count (N : Nat) (str : List Nat) (count : Nat) : Res (List Nat) :=
  if count > N then .err .length_error
  else .ok (writeRange (List.replicate (N + 1) 0) 0 (readRange str 0 count))

/-- The `consteval` literal constructor (requires `N2 <= N + 1` at the use
site): copies `N2 - 1` units over the `m_data{}`-initialized buffer. -/
def GwV2.ctor_literal (N N2 : Nat) (str : List Nat) : List Nat :=
  writeRange (List.replicate (N + 1) 0) 0 (readRange str 0 (N2 - 1))

/-- Method `at(pos)`: bounds-checked element access,
`pos < size() ? m_data[pos] : throw std::out_of_range`. -/
def GwV2.at_pos (b : List Nat) (pos : Nat) : Res Nat :=
  if pos < strLen b then .ok (bufGet b pos) else .err .out_of_range

/-- Method `clear()`: `m_data[0] = value_type{}`. -/
def GwV2.clear (b : List Nat) : List Nat := bufSet b 0 0

/-- Method `insert(index, count, ch)`: checks `size() + count > max_size()`, then
`std::copy_backward(begin() + index, end(), end() + count)`, then
`std::fill_n(begin() + index, count, ch)`, then writes the terminator at
`projected_size`. -/
def GwV2.insert (N index count ch : Nat) (b : List Nat) : Option Err × List Nat :=
  let s := strLen b
  let projected := (s + count) % W
  if projected > N then (some .length_error, b)
  else
    let b1 := writeRange b (index + count) (readRange b index (s - index))
    let b2 := writeRange b1 index (List.replicate count ch)
    (none, bufSet b2 projected 0)

/-- Outcome of `erase`: a normal return of the new buffer, a throw (with
the buffer at the throw point), or reaching undefined behavior — the
latter yields no post-state at all. -/
inductive EraseOut : Type
  | ret (b : List Nat) : EraseOut
  | thrown (e : Err) (b : List Nat) : EraseOut
  | ub : EraseOut
deriving DecidableEq, Repr

/-- Method `erase(index = 0, count = npos)`: checks `index >= size()`, then
`std::copy(begin() + (index + count), end(), begin() + index)`, then writes
the terminator at `size() - min(count, size() - index)`.  The source
offset `index + count` is computed in `size_type` (wrapping) and then
converted to `difference_type` for the pointer arithmetic, so: when the
resulting offset is at most `size()` the copy is over the valid (possibly
overlapping, memmove-modelled) range `[offset, size())`; any larger
offset places the copy source past `end()` (or before `begin()` after
conversion to a negative offset), and `std::copy` computes a
negative-as-huge length — undefined behavior, modelled as `.ub` with no
post-state. -/
def GwV2.erase (_N : Nat) (index count : Nat) (b : List Nat) : EraseOut :=
  let s := strLen b
  if index ≥ s then .thrown .out_of_range b
  else
    let src := (index + count) % W
    if src ≤ s then
      let n := min count (s - index)
      .ret (bufSet (writeRange b index (readRange b src (s - src))) (s - n) 0)
    else .ub

/-- Method `push_back(ch)`: checks `size() + 1 > max_size()`, then writes `ch` at
`size()` and the terminator at `size() + 1`. -/
def GwV2.push_back (N ch : Nat) (b : List Nat) : Option Err × List Nat :=
  let s := strLen b
  let projected := (s + 1) % W
  if projected > N then (some .length_error, b)
  else (none, bufSet (bufSet b s ch) projected 0)

/-- Method `pop_back()`: `m_data[size() - 1] = value_type{}` (the `size() - 1`
wraps in `size_type` on an empty string — a documented caller contract
violation). -/
def GwV2.pop_back (b : List Nat) : List Nat :=
  bufSet b ((strLen b + (W - 1)) % W) 0

/-- Method `append(str)`: checks `size() + str.size() > max_size()`, then
`traits_type::copy(end(), str.data(), str.size())` and writes the
terminator at `projected_size`. -/
def GwV2.append (N : Nat) (b str : List Nat) : Option Err × List Nat :=
  let s := strLen b
  let s2 := strLen str
  let projected := (s + s2) % W
  if projected > N then (some .length_error, b)
  else (none, bufSet (writeRange b s (readRange str 0 s2)) projected 0)

/-- Method `operator+=(str)`: textually the same body as `append` followed by
`return *this`. -/
def GwV2.op_plus_eq (N : Nat) (b str : List Nat) : Option Err × List Nat :=
  let s := strLen b
  let s2 := strLen str
  let projected := (s + s2) % W
  if projected > N then (some .length_error, b)
  else (none, bufSet (writeRange b s (readRange str 0 s2)) projected 0)

/-- One-argument `resize(count)`: checks `count > max_size()` and then only
writes the terminator at `count` (this revision does not fill). -/
def GwV2.resize (N count : Nat) (b : List Nat) : Option Err × List Nat :=
  if count > N then (some .length_error, b)
  else (none, bufSet b count 0)

/-- Two-argument `resize(count, ch)`: checks `count > max_size()`, fills
`[size(), count)` with `ch` when growing, then writes the terminator at
`count`. -/
def GwV2.resize_fill (N count ch : Nat) (b : List Nat) : Option Err × List Nat :=
  if count > N then (some .length_error, b)
  else
    let s := strLen b
    let b1 := if count > s then writeRange b s (List.replicate (count - s) ch) else b
    (none, bufSet b1 count 0)

/-- Method `reserve(new_cap)`: throws `std::length_error` when
`new_cap > max_size()` and otherwise does nothing at all. -/
def GwV2.reserve (N new_cap : Nat) (b : List Nat) : Option Err × List Nat :=
  if new_cap > N then (some .length_error, b) else (none, b)

/-- Method `shrink_to_fit()`: does nothing. -/
def GwV2.shrink_to_fit (b : List Nat) : List Nat := b

/-- Function `std::basic_string_view::rfind(ch, pos)`: the largest index `i` with
`i <= pos`, `i < v.length` and `v[i] = ch`, or `npos` if there is none. -/
def svRfindChar (v : List Nat) (ch pos : Nat) : Nat :=
  match ((List.range v.length).filter
      (fun i => decide (i ≤ pos) && (bufGet v i == ch))).getLast? with
  | some i => i
  | none => GwV2.npos

/-- The single-character `find(ch, pos = npos)` overload: its body is
`static_cast<basic_string_view>(*this).rfind(ch, pos)`. -/
def GwV2.find_char (b : List Nat) (ch : Nat) (pos : Nat) : Nat :=
  svRfindChar (logicalStr b) ch pos

/-- Same-capacity `operator==`:
`std::equal(lhs.begin(), lhs.end(), rhs.begin())` — compares exactly
`lhs.size()` units, reading the right-hand buffer directly. -/
def GwV2.beq (bl br : List Nat) : Bool :=
  (List.range (strLen bl)).all (fun i => bufGet bl i == bufGet br i)

/-- Overload `operator==(lhs, const value_type* rhs)`:
`traits_type::compare(lhs.data(), rhs, traits_type::length(rhs)) == 0` —
compares exactly `length(rhs)` units of the left-hand buffer. -/
def GwV2.beq_ptr (bl rhs : List Nat) : Bool :=
  (List.range (strLen rhs)).all (fun i => bufGet bl i == bufGet rhs i)

/-- Binary `operator+`: default-initializes a result of capacity
`N1 + N2` (indeterminate storage `init` in this revision), copies
`lhs.size()` then `rhs.size()` units, and writes the terminator at
`lhs.size() + rhs.size()`; it never throws. -/
def GwV2.op_plus (init a b2 : List Nat) : List Nat :=
  let la := strLen a
  let lb := strLen b2
  let r1 := writeRange init 0 (readRange a 0 la)
  let r2 := writeRange r1 la (readRange b2 0 lb)
  bufSet r2 ((la + lb) % W) 0

/-! The minimal revision (inplace_string.hpp) where it differs -/

/-- Default constructor of the minimal revision: `m_data{}` has a
zeroing default member initializer, so the buffer starts all-zero. -/
def GwV1.ctor_default (N : Nat) : List Nat := List.replicate (N + 1) 0

/-! Reachable states of a capacity-`N` string, named_type.hpp revision

A state is reachable when it is produced by a public construction and a
sequence of mutations that completed without throwing.  The `Bool` index
records whether raw default-initialization (whose buffer is whatever
storage the object happens to occupy, since `m_data` has no initializer
in this revision) is admitted: `Reach N true b` admits it, while
`Reach N false b` restricts construction to the value-initializing and
checked constructors.  `swap` is omitted: it only exchanges two already
reachable buffers. -/

inductive GwV2.Reach (N : Nat) : Bool → List Nat → Prop
  | default_dirty (init : List Nat) (h : init.length = N + 1) :
      GwV2.Reach N true init
  | default_value {d : Bool} : GwV2.Reach N d (GwV2.value_init N)
  | of_count {d : Bool} (count ch : Nat) (b : List Nat)
      (h : GwV2.ctor_count N count ch = .ok b) : GwV2.Reach N d b
  | of_ptr {d : Bool} (str b : List Nat)
      (h : GwV2.ctor_ptr N str = .ok b) : GwV2.Reach N d b
  | of_ptr_count {d : Bool} (str : List Nat) (count : Nat) (b : List Nat)
      (h : GwV2.ctor_ptr_count N str count = .ok b) : GwV2.Reach N d b
  | of_literal {d : Bool} (N2 : Nat) (str : List Nat) (h : N2 ≤ N + 1) :
      GwV2.Reach N d (GwV2.ctor_literal N N2 str)
  | step_insert {d : Bool} (index count ch : Nat) (b : List Nat)
      (hb : GwV2.Reach N d b) (h : (GwV2.insert N index count ch b).1 = none) :
      GwV2.Reach N d (GwV2.insert N index count ch b).2
  | step_erase {d : Bool} (index count : Nat) (b b2 : List Nat)
      (hb : GwV2.Reach N d b) (h : GwV2.erase N index count b = .ret b2) :
      GwV2.Reach N d b2
  | step_push_back {d : Bool} (ch : Nat) (b : List Nat)
      (hb : GwV2.Reach N d b) (h : (GwV2.push_back N ch b).1 = none) :
      GwV2.Reach N d (GwV2.push_back N ch b).2
  | step_pop_back {d : Bool} (b : List Nat) (hb : GwV2.Reach N d b) :
      GwV2.Reach N d (GwV2.pop_back b)
  | step_append {d : Bool} (b str : List Nat)
      (hb : GwV2.Reach N d b) (h : (GwV2.append N b str).1 = none) :
      GwV2.Reach N d (GwV2.append N b str).2
  | step_plus_eq {d : Bool} (b str : List Nat)
      (hb : GwV2.Reach N d b) (h : (GwV2.op_plus_eq N b str).1 = none) :
      GwV2.Reach N d (GwV2.op_plus_eq N b str).2
  | step_resize {d : Bool} (count : Nat) (b : List Nat)
      (hb : GwV2.Reach N d b) (h : (GwV2.resize N count b).1 = none) :
      GwV2.Reach N d (GwV2.resize N count b).2
  | step_resize_fill {d : Bool} (count ch : Nat) (b : List Nat)
      (hb : GwV2.Reach N d b) (h : (GwV2.resize_fill N count ch b).1 = none) :
      GwV2.Reach N d (GwV2.resize_fill N count ch b).2
  | step_clear {d : Bool} (b : List Nat) (hb : GwV2.Reach N d b) :
      GwV2.Reach N d (GwV2.clear b)

/-! Concrete buffers used in the example scenarios -/

/-- Capacity-13 buffer holding "Hello, World!". -/
def hwBuf : List Nat := [72, 101, 108, 108, 111, 44, 32, 87, 111, 114, 108, 100, 33, 0]

/-- Capacity-13 buffer holding "Hello". -/
def h5Buf : List Nat := [72, 101, 108, 108, 111, 0, 0, 0, 0, 0, 0, 0, 0, 0]

/-- Capacity-7 buffer holding "Hello, ". -/
def hello7Buf : List Nat := [72, 101, 108, 108, 111, 44, 32, 0]

/-- Capacity-6 buffer holding "World!". -/
def world6Buf : List Nat := [87, 111, 114, 108, 100, 33, 0]

/-! Basic buffer lemmas -/

theorem length_bufSet (b : List Nat) (p v : Nat) :
    (bufSet b p v).length = b.length := by
  induction b generalizing p with
  | nil => rfl
  | cons c rest ih =>
    cases p with
    | zero => rfl
    | succ n => simpa [bufSet] using ih n

theorem length_writeRange (vs : List Nat) (b : List Nat) (i : Nat) :
    (writeRange b i vs).length = b.length := by
  induction vs generalizing b i with
  | nil => rfl
  | cons v vs ih => simpa [writeRange, length_bufSet] using ih (bufSet b i v) (i + 1)

theorem length_readRange (b : List Nat) (i len : Nat) :
    (readRange b i len).length = len := by
  induction len generalizing i with
  | zero => rfl
  | succ l ih => simpa [readRange] using ih (i + 1)

theorem bufGet_readRange (b : List Nat) (i len j : Nat) (hj : j < len) :
    bufGet (readRange b i len) j = bufGet b (i + j) := by
  induction len generalizing i j with
  | zero => omega
  | succ l ih =>
    cases j with
    | zero => simp [readRange, bufGet]
    | succ j =>
      have := ih (i + 1) j (by omega)
      simpa [readRange, bufGet, Nat.add_assoc, Nat.add_comm, Nat.add_left_comm] using this

theorem bufGet_bufSet_self (b : List Nat) (p v : Nat) (hp : p < b.length) :
    bufGet (bufSet b p v) p = v := by
  induction b generalizing p with
  | nil => simp at hp
  | cons c rest ih =>
    cases p with
    | zero => rfl
    | succ n => simpa [bufSet, bufGet] using ih n (by simpa using Nat.lt_of_succ_lt_succ hp)

theorem bufGet_bufSet_ne (b : List Nat) (p q v : Nat) (h : p ≠ q) :
    bufGet (bufSet b p v) q = bufGet b q := by
  induction b generalizing p q with
  | nil => rfl
  | cons c rest ih =>
    cases p with
    | zero =>
      cases q with
      | zero => exact absurd rfl h
      | succ m => rfl
    | succ n =>
      cases q with
      | zero => rfl
      | succ m => simpa [bufSet, bufGet] using ih n m (by omega)

theorem bufGet_writeRange_lo (vs : List Nat) (b : List Nat) (i q : Nat)
    (hq : q < i) : bufGet (writeRange b i vs) q = bufGet b q := by
  induction vs generalizing b i with
  | nil => rfl
  | cons v vs ih =>
    have h1 := ih (bufSet b i v) (i + 1) (by omega)
    simpa [writeRange, h1] using bufGet_bufSet_ne b i q v (by omega)

theorem bufGet_writeRange_hi (vs : List Nat) (b : List Nat) (i q : Nat)
    (hq : i + vs.length ≤ q) : bufGet (writeRange b i vs) q = bufGet b q := by
  induction vs generalizing b i with
  | nil => rfl
  | cons v vs ih =>
    have h1 := ih (bufSet b i v) (i + 1) (by simp at hq; omega)
    have h2 : i ≠ q := by simp at hq; omega
    simpa [writeRange, h1] using bufGet_bufSet_ne b i q v h2

theorem bufGet_writeRange_mid (vs : List Nat) (b : List Nat) (i q : Nat)
    (h1 : i ≤ q) (h2 : q < i + vs.length) (h3 : q < b.length) :
    bufGet (writeRange b i vs) q = bufGet vs (q - i) := by
  induction vs generalizing b i with
  | nil => simp at h2; omega
  | cons v vs ih =>
    by_cases hq : q = i
    · subst hq
      have hlen : q < (bufSet b q v).length := by rwa [length_bufSet]
      have := bufGet_writeRange_lo vs (bufSet b q v) (q + 1) q (by omega)
      simpa [writeRange, this, Nat.sub_self, bufGet] using bufGet_bufSet_self b q v h3
    · have hi : i + 1 ≤ q := by omega
      have := ih (bufSet b i v) (i + 1) hi (by simp at h2 ⊢; omega)
        (by rwa [length_bufSet])
      have hsub : q - i = (q - (i + 1)) + 1 := by omega
      simp [writeRange, this, hsub, bufGet]

theorem strLen_le_length (b : List Nat) : strLen b ≤ b.length := by
  induction b with
  | nil => exact Nat.le_refl 0
  | cons c rest ih =>
    by_cases hc : c = 0
    · simp [strLen, hc]
    · simpa [strLen, hc] using Nat.succ_le_succ ih

theorem strLen_le_of_zero (b : List Nat) (j : Nat) (h : bufGet b j = 0) :
    strLen b ≤ j := by
  induction b generalizing j with
  | nil => exact Nat.zero_le j
  | cons c rest ih =>
    cases j with
    | zero =>
      have : c = 0 := h
      simp [strLen, this]
    | succ n =>
      by_cases hc : c = 0
      · simp [strLen, hc]
      · have := ih n h
        simpa [strLen, hc] using Nat.succ_le_succ this

theorem bufGet_ne_zero_of_lt_strLen (b : List Nat) (j : Nat) (h : j < strLen b) :
    bufGet b j ≠ 0 := by
  induction b generalizing j with
  | nil => simp [strLen] at h
  | cons c rest ih =>
    by_cases hc : c = 0
    · simp [strLen, hc] at h
    · cases j with
      | zero => simpa [bufGet] using hc
      | succ n =>
        simp [strLen, hc] at h
        exact ih n (by omega)

theorem bufGet_strLen_eq_zero (b : List Nat) (h : strLen b < b.length) :
    bufGet b (strLen b) = 0 := by
  induction b with
  | nil => simp at h
  | cons c rest ih =>
    by_cases hc : c = 0
    · simp [strLen, hc, bufGet]
    · simp only [strLen, hc, if_false]
      have : strLen rest < rest.length := by
        simp [strLen, hc] at h; omega
      simpa [bufGet] using ih this

theorem bufGet_oob (b : List Nat) (j : Nat) (h : b.length ≤ j) : bufGet b j = 0 := by
  induction b generalizing j with
  | nil => rfl
  | cons c rest ih =>
    cases j with
    | zero => simp at h
    | succ n => simpa [bufGet] using ih n (by simpa using Nat.le_of_succ_le_succ h)

theorem strLen_eq_of (b : List Nat) (k : Nat)
    (h1 : ∀ j, j < k → bufGet b j ≠ 0) (h2 : bufGet b k = 0) : strLen b = k := by
  have hle := strLen_le_of_zero b k h2
  rcases Nat.eq_or_lt_of_le hle with heq | hlt
  · exact heq
  · exfalso
    apply h1 (strLen b) hlt
    rcases Nat.lt_or_ge (strLen b) b.length with hl | hg
    · exact bufGet_strLen_eq_zero b hl
    · exact bufGet_oob b (strLen b) hg

theorem bufGet_replicate_zero (n j : Nat) : bufGet (List.replicate n 0) j = 0 := by
  induction n generalizing j with
  | zero => rfl
  | succ m ih =>
    cases j with
    | zero => rfl
    | succ i => simpa [List.replicate, bufGet] using ih i

theorem strLen_replicate_zero (n : Nat) : strLen (List.replicate n 0) = 0 := by
  cases n with
  | zero => rfl
  | succ m => simp [List.replicate, strLen]


theorem bufSet_oob (b : List Nat) (p v : Nat) (h : b.length ≤ p) : bufSet b p v = b := by
  induction b generalizing p with
  | nil => rfl
  | cons c rest ih =>
    cases p with
    | zero => simp at h
    | succ n => simpa [bufSet] using ih n (by simpa using Nat.le_of_succ_le_succ h)

theorem invariant_set_zero (b : List Nat) (N p : Nat)
    (hlen : b.length = N + 1) (hp : p ≤ N) :
    (bufSet b p 0).length = N + 1 ∧ strLen (bufSet b p 0) ≤ N := by
  refine ⟨by rw [length_bufSet, hlen], ?_⟩
  have hz : bufGet (bufSet b p 0) p = 0 :=
    bufGet_bufSet_self b p 0 (by omega)
  exact le_trans (strLen_le_of_zero _ p hz) hp

theorem ctor_copy_invariant (N : Nat) (vs : List Nat) (hvs : vs.length ≤ N) :
    (writeRange (List.replicate (N + 1) 0) 0 vs).length = N + 1 ∧
    strLen (writeRange (List.replicate (N + 1) 0) 0 vs) ≤ N := by
  refine ⟨by rw [length_writeRange, List.length_replicate], ?_⟩
  apply strLen_le_of_zero _ N
  rw [bufGet_writeRange_hi vs _ 0 N (by omega)]
  exact bufGet_replicate_zero _ N

theorem pop_back_index (s : Nat) (h1 : 1 ≤ s) (h2 : s < W) :
    (s + (W - 1)) % W = s - 1 := by
  have hW : 0 < W := by decide
  have : s + (W - 1) = (s - 1) + W := by omega
  rw [this, Nat.add_mod_right, Nat.mod_eq_of_lt (by omega)]

/-! The claims -/

/-- Claim C2, counterexample: with raw default-initialization admitted
(`m_data` has no initializer in the named_type.hpp revision), a reachable
state need not contain a terminator at or before index `N`: storage
`[7, 7]` at capacity 1 has none, refuting the claim as stated. -/
theorem claim_C2_counterexample :
    ¬ (∀ (N : Nat) (b : List Nat), GwV2.Reach N true b → strLen b ≤ N) := by
  intro h
  have h2 := h 1 [7, 7] (GwV2.Reach.default_dirty [7, 7] (by decide))
  exact absurd h2 (by decide)

/-- Claim C2, amended: for every state reachable from a value-initializing
or checked public construction (raw default-initialization excluded) by
any sequence of successful mutations, with any argument values, the buffer
keeps its modelled length `N + 1` and contains a zero terminator at or
before index `N`, i.e. `size() <= max_size() = N`. -/
theorem claim_C2_terminator_invariant (N : Nat) (b : List Nat) (hN : N < W)
    (h : GwV2.Reach N false b) : b.length = N + 1 ∧ strLen b ≤ N := by
  suffices H : ∀ (d : Bool) (c : List Nat), GwV2.Reach N d c → d = false →
      c.length = N + 1 ∧ strLen c ≤ N from H false b h rfl
  intro d c hreach
  induction hreach with
  | default_dirty init hlen => intro hd; exact absurd hd (by simp)
  | default_value =>
    intro _
    simp [GwV2.value_init, strLen_replicate_zero]
  | of_count count ch b h =>
    intro _
    unfold GwV2.ctor_count at h
    split at h
    · cases h
    next hc =>
      cases h
      exact ctor_copy_invariant N _ (by rw [List.length_replicate]; omega)
  | of_ptr str b h =>
    intro _
    simp only [GwV2.ctor_ptr] at h
    split at h
    · cases h
    next hc =>
      cases h
      exact ctor_copy_invariant N _ (by rw [length_readRange]; omega)
  | of_ptr_count str count b h =>
    intro _
    unfold GwV2.ctor_ptr_count at h
    split at h
    · cases h
    next hc =>
      cases h
      exact ctor_copy_invariant N _ (by rw [length_readRange]; omega)
  | of_literal N2 str h =>
    intro _
    exact ctor_copy_invariant N _ (by rw [length_readRange]; omega)
  | step_insert index count ch b hb h ih =>
    intro hd
    have ih := ih hd
    simp only [GwV2.insert] at h ⊢
    split at h
    · cases h
    next hc =>
      rw [if_neg hc]
      exact invariant_set_zero _ N _
        (by rw [length_writeRange, length_writeRange, ih.1]) (by omega)
  | step_erase index count b b2 hb h ih =>
    intro hd
    have ih := ih hd
    simp only [GwV2.erase] at h
    split at h
    · cases h
    next hc =>
      split at h
      · cases h
        exact invariant_set_zero _ N _
          (by rw [length_writeRange, ih.1])
          (by have := ih.2; omega)
      · cases h
  | step_push_back ch b hb h ih =>
    intro hd
    have ih := ih hd
    simp only [GwV2.push_back] at h ⊢
    split at h
    · cases h
    next hc =>
      rw [if_neg hc]
      exact invariant_set_zero _ N _ (by rw [length_bufSet, ih.1]) (by omega)
  | step_pop_back b hb ih =>
    intro hd
    have ih := ih hd
    simp only [GwV2.pop_back]
    rcases Nat.eq_zero_or_pos (strLen b) with hs | hs
    · rw [hs]
      have hW : 0 < W := by decide
      have hp : (0 + (W - 1)) % W = W - 1 := by
        rw [Nat.zero_add, Nat.mod_eq_of_lt (by omega)]
      rw [hp]
      by_cases hN1 : W - 1 ≤ N
      · exact invariant_set_zero b N (W - 1) ih.1 hN1
      · rw [bufSet_oob b _ 0 (by rw [ih.1]; omega)]
        exact ih
    · have hsW : strLen b < W := by have := ih.2; omega
      rw [pop_back_index (strLen b) hs hsW]
      exact invariant_set_zero b N _ ih.1 (by have := ih.2; omega)
  | step_append b str hb h ih =>
    intro hd
    have ih := ih hd
    simp only [GwV2.append] at h ⊢
    split at h
    · cases h
    next hc =>
      rw [if_neg hc]
      exact invariant_set_zero _ N _ (by rw [length_writeRange, ih.1]) (by omega)
  | step_plus_eq b str hb h ih =>
    intro hd
    have ih := ih hd
    simp only [GwV2.op_plus_eq] at h ⊢
    split at h
    · cases h
    next hc =>
      rw [if_neg hc]
      exact invariant_set_zero _ N _ (by rw [length_writeRange, ih.1]) (by omega)
  | step_resize count b hb h ih =>
    intro hd
    have ih := ih hd
    simp only [GwV2.resize] at h ⊢
    split at h
    · cases h
    next hc =>
      rw [if_neg hc]
      exact invariant_set_zero b N count ih.1 (by omega)
  | step_resize_fill count ch b hb h ih =>
    intro hd
    have ih := ih hd
    simp only [GwV2.resize_fill] at h ⊢
    split at h
    · cases h
    next hc =>
      rw [if_neg hc]
      refine invariant_set_zero _ N count ?_ (by omega)
      split
      · rw [length_writeRange, ih.1]
      · exact ih.1
  | step_clear b hb ih =>
    intro hd
    have ih := ih hd
    exact invariant_set_zero b N 0 ih.1 (Nat.zero_le N)

/-- Witness for the amended C2 invariant at a concrete reachable state. -/
theorem claim_C2_witness :
    (GwV2.value_init 1).length = 1 + 1 ∧ strLen (GwV2.value_init 1) ≤ 1 :=
  claim_C2_terminator_invariant 1 (GwV2.value_init 1) (by decide)
    GwV2.Reach.default_value

/-- Claim C1: whenever a mutating operation of the named_type.hpp revision
(insert, push_back, append, operator+=, resize in both forms, erase)
reports an error, the buffer after the call equals the buffer before the
call — every capacity / bounds check precedes the first buffer write —
and the checked count constructor fails exactly when `count > N`. -/
theorem claim_C1_no_partial_write
    (N index count ch cnt : Nat) (b str : List Nat) :
    ((GwV2.insert N index count ch b).1.isSome → (GwV2.insert N index count ch b).2 = b) ∧
    ((GwV2.push_back N ch b).1.isSome → (GwV2.push_back N ch b).2 = b) ∧
    ((GwV2.append N b str).1.isSome → (GwV2.append N b str).2 = b) ∧
    ((GwV2.op_plus_eq N b str).1.isSome → (GwV2.op_plus_eq N b str).2 = b) ∧
    ((GwV2.resize N cnt b).1.isSome → (GwV2.resize N cnt b).2 = b) ∧
    ((GwV2.resize_fill N cnt ch b).1.isSome → (GwV2.resize_fill N cnt ch b).2 = b) ∧
    (∀ e b2, GwV2.erase N index count b = .thrown e b2 → b2 = b) ∧
    ((∃ e, GwV2.ctor_count N count ch = .err e) ↔ N < count) := by
  refine ⟨?_, ?_, ?_, ?_, ?_, ?_, ?_, ?_⟩
  · intro h
    simp only [GwV2.insert] at h ⊢
    split at h
    · next hc => rw [if_pos hc]
    · simp at h
  · intro h
    simp only [GwV2.push_back] at h ⊢
    split at h
    · next hc => rw [if_pos hc]
    · simp at h
  · intro h
    simp only [GwV2.append] at h ⊢
    split at h
    · next hc => rw [if_pos hc]
    · simp at h
  · intro h
    simp only [GwV2.op_plus_eq] at h ⊢
    split at h
    · next hc => rw [if_pos hc]
    · simp at h
  · intro h
    simp only [GwV2.resize] at h ⊢
    split at h
    · next hc => rw [if_pos hc]
    · simp at h
  · intro h
    simp only [GwV2.resize_fill] at h ⊢
    split at h
    · next hc => rw [if_pos hc]
    · simp at h
  · intro e b2 h
    simp only [GwV2.erase] at h
    split at h
    · cases h; rfl
    · split at h
      · cases h
      · cases h
  · unfold GwV2.ctor_count
    by_cases hc : count > N <;> simp [hc]

/-- Witness for C1: a full capacity-1 string rejects a five-unit insert
and a length-9 resize, leaving the buffer `[1, 0]` untouched. -/
theorem claim_C1_witness :
    (GwV2.insert 1 0 5 2 [1, 0]).1.isSome = true ∧
    (GwV2.insert 1 0 5 2 [1, 0]).2 = [1, 0] ∧
    (GwV2.resize 1 9 [1, 0]).2 = [1, 0] :=
  ⟨by decide,
   (claim_C1_no_partial_write 1 0 5 2 9 [1, 0] []).1 (by decide),
   (claim_C1_no_partial_write 1 0 5 2 9 [1, 0] []).2.2.2.2.1 (by decide)⟩

/-- Claim C3, counterexample: the `erase` of the richer revision throws
`IndexOutOfRange` when `index >= size()`, so the claimed canonical no-op
`erase(size(), 0)` — here `erase(13, 0)` on a size-13 string — fails,
refuting "fails exactly when `index > size()`". -/
theorem claim_C3_counterexample :
    GwV2.erase 13 13 0 hwBuf = .thrown Err.out_of_range hwBuf ∧
    strLen hwBuf = 13 := by decide

/-- Claim C4: the single-character `find` overload is implemented as
`rfind` with default position `npos`.  On "Hello, World!" searching the
unit 'o' (111) it returns 8, the index of the last occurrence, although
the first occurrence is at index 4 (no occurrence before index 4), as
the documentation of the overload promises. -/
theorem claim_C4_find_char_returns_last :
    GwV2.find_char hwBuf 111 GwV2.npos = 8 ∧
    bufGet hwBuf 4 = 111 ∧
    ((List.range 4).all (fun i => !(bufGet hwBuf i == 111))) = true ∧
    4 < strLen hwBuf := by decide

/-- Claim C5: `operator==` compares only `lhs.size()` units
(three-argument `std::equal`), so "Hello" compares equal to
"Hello, World!" at the same capacity although the logical sequences
differ, the mirrored comparison disagrees (asymmetry), and the pointer
overload (`traits_type::compare` over `length(rhs)` units) also calls
"Hello, World!" equal to "Hello". -/
theorem claim_C5_equality_bug :
    GwV2.beq h5Buf hwBuf = true ∧
    logicalStr h5Buf ≠ logicalStr hwBuf ∧
    GwV2.beq hwBuf h5Buf = false ∧
    GwV2.beq_ptr hwBuf h5Buf = true := by decide

/-- Claim C7: in the named_type.hpp revision `m_data` has no initializer
and the default constructor is defaulted, so a default-initialized string
keeps whatever its storage held — storage `[7, 7]` gives a nonempty
string — while the inplace_string.hpp revision (zeroing member
initializer) is empty for every capacity. -/
theorem claim_C7_default_ctor_dirty :
    strLen (GwV2.ctor_default [7, 7]) ≠ 0 ∧
    (∀ N, strLen (GwV1.ctor_default N) = 0) :=
  ⟨by decide, fun N => by simp [GwV1.ctor_default, strLen_replicate_zero]⟩

/-- Claim C6, counterexample: one-argument `resize(4)` on a capacity-4
string of size 2 succeeds but only writes a terminator at index 4; the
logical size, read off the first zero unit, stays 2, refuting "the
logical size equals count". -/
theorem claim_C6_counterexample :
    (GwV2.resize 4 4 [1, 2, 0, 0, 0]).1 = none ∧
    strLen (GwV2.resize 4 4 [1, 2, 0, 0, 0]).2 = 2 := by decide

/-- Claim C10: `reserve(new_cap)` fails with `CapacityExceeded` exactly
when `new_cap > max_size()` and never changes the buffer;
`shrink_to_fit()` does nothing; `capacity()` always equals `N`. -/
theorem claim_C10_reserve_frame (N new_cap : Nat) (b : List Nat) :
    ((GwV2.reserve N new_cap b).1 = some Err.length_error ↔ GwV2.max_size N < new_cap) ∧
    (GwV2.reserve N new_cap b).2 = b ∧
    GwV2.shrink_to_fit b = b ∧
    GwV2.capacity N = N := by
  unfold GwV2.reserve GwV2.shrink_to_fit GwV2.capacity GwV2.max_size
  by_cases hc : new_cap > N <;> simp [hc]

theorem bufGet_replicate (n v j : Nat) (hj : j < n) :
    bufGet (List.replicate n v) j = v := by
  induction n generalizing j with
  | zero => omega
  | succ m ih =>
    cases j with
    | zero => rfl
    | succ i => simpa [List.replicate, bufGet] using ih i (by omega)

/-- Claim C9: `at(pos)` returns the unit at position `pos` of the logical
sequence when `pos < size()` (and that unit is a real character, not the
terminator), and fails with `IndexOutOfRange` exactly when
`pos >= size()`. -/
theorem claim_C9_at_bounds (b : List Nat) (pos : Nat) :
    (pos < strLen b →
      GwV2.at_pos b pos = .ok (bufGet (logicalStr b) pos) ∧
      bufGet (logicalStr b) pos ≠ 0) ∧
    (strLen b ≤ pos → GwV2.at_pos b pos = .err .out_of_range) := by
  constructor
  · intro h
    have hl : bufGet (logicalStr b) pos = bufGet b pos := by
      unfold logicalStr
      rw [bufGet_readRange b 0 (strLen b) pos h, Nat.zero_add]
    refine ⟨by simp [GwV2.at_pos, h, hl], ?_⟩
    rw [hl]
    exact bufGet_ne_zero_of_lt_strLen b pos h
  · intro h
    simp [GwV2.at_pos, Nat.not_lt_of_ge h]

/-- Witness for C9 on the example of the spec: `at(0) == 'H'`, `at(12) == '!'`,
`at(13)` fails on a capacity-13 "Hello, World!". -/
theorem claim_C9_witness :
    GwV2.at_pos hwBuf 0 = .ok 72 ∧
    GwV2.at_pos hwBuf 12 = .ok 33 ∧
    GwV2.at_pos hwBuf 13 = .err .out_of_range := by
  refine ⟨?_, ?_, ?_⟩
  · have h := (claim_C9_at_bounds hwBuf 0).1 (by decide)
    rw [h.1]; decide
  · have h := (claim_C9_at_bounds hwBuf 12).1 (by decide)
    rw [h.1]; decide
  · exact (claim_C9_at_bounds hwBuf 13).2 (by decide)

/-- Claim C8: binary `operator+` of strings of capacities `N1` and `N2`
never fails, yields a result of capacity exactly `N1 + N2` (modelled
buffer length `N1 + N2 + 1`), whose logical sequence is the sequence of
the left operand followed by that of the right, so in particular
`(a + b).size() = a.size() + b.size()` — for every content of the
indeterminate storage the result object occupies. -/
theorem claim_C8_concat (N1 N2 : Nat) (init a b2 : List Nat)
    (hinit : init.length = N1 + N2 + 1)
    (ha : strLen a ≤ N1) (hb : strLen b2 ≤ N2) (hW : N1 + N2 < W) :
    (GwV2.op_plus init a b2).length = (N1 + N2) + 1 ∧
    strLen (GwV2.op_plus init a b2) = strLen a + strLen b2 ∧
    (∀ j, j < strLen a + strLen b2 →
      bufGet (GwV2.op_plus init a b2) j =
        if j < strLen a then bufGet a j else bufGet b2 (j - strLen a)) := by
  simp only [GwV2.op_plus]
  have hmod : (strLen a + strLen b2) % W = strLen a + strLen b2 :=
    Nat.mod_eq_of_lt (by omega)
  rw [hmod]
  set la := strLen a with hla
  set lb := strLen b2 with hlb
  set r1 := writeRange init 0 (readRange a 0 la) with hr1
  set r2 := writeRange r1 la (readRange b2 0 lb) with hr2
  have hr1len : r1.length = N1 + N2 + 1 := by rw [hr1, length_writeRange, hinit]
  have hr2len : r2.length = N1 + N2 + 1 := by rw [hr2, length_writeRange, hr1len]
  have hchar : ∀ j, j < la + lb →
      bufGet r2 j = if j < la then bufGet a j else bufGet b2 (j - la) := by
    intro j hj
    by_cases hja : j < la
    · rw [if_pos hja]
      rw [hr2, bufGet_writeRange_lo _ _ _ _ hja]
      rw [hr1, bufGet_writeRange_mid _ _ _ _ (Nat.zero_le j)
        (by rw [length_readRange]; omega) (by omega)]
      rw [Nat.sub_zero, bufGet_readRange a 0 la j hja, Nat.zero_add]
    · rw [if_neg hja]
      rw [hr2, bufGet_writeRange_mid _ _ _ _ (by omega)
        (by rw [length_readRange]; omega) (by omega)]
      rw [bufGet_readRange b2 0 lb (j - la) (by omega), Nat.zero_add]
  refine ⟨by rw [length_bufSet, hr2len], ?_, ?_⟩
  · apply strLen_eq_of
    · intro j hj
      rw [bufGet_bufSet_ne _ _ _ _ (by omega), hchar j hj]
      by_cases hja : j < la
      · rw [if_pos hja]
        exact bufGet_ne_zero_of_lt_strLen a j (by omega)
      · rw [if_neg hja]
        exact bufGet_ne_zero_of_lt_strLen b2 (j - la) (by omega)
    · exact bufGet_bufSet_self r2 (la + lb) 0 (by omega)
  · intro j hj
    rw [bufGet_bufSet_ne _ _ _ _ (by omega)]
    exact hchar j hj

/-- Witness for C8 on the example of the spec: capacity-7 "Hello, " plus
capacity-6 "World!" gives a size-13 result even on dirty storage. -/
theorem claim_C8_witness :
    strLen (GwV2.op_plus (List.replicate 14 9) hello7Buf world6Buf) = 13 := by
  have h := claim_C8_concat 7 6 (List.replicate 14 9) hello7Buf world6Buf
    (by decide) (by decide) (by decide) (by decide)
  rw [h.2.1]; decide

/-- Claim C6, amended: both `resize` overloads fail with
`CapacityExceeded` exactly when `count > N`, leaving the buffer
untouched.  On success, `count <= size()` truncates the string to logical
size `count` keeping its first `count` units; but because the logical
size is read off the first zero unit, growing can only produce logical
size `count` for a nonzero fill character (positions
`size()..count - 1` then all equal `ch`): the one-argument overload and a
zero `ch` leave the logical size unchanged when `count >= size()`. -/
theorem claim_C6_resize_semantics (N count ch : Nat) (b : List Nat)
    (hlen : b.length = N + 1) (hs : strLen b ≤ N) :
    (N < count →
      GwV2.resize N count b = (some .length_error, b) ∧
      GwV2.resize_fill N count ch b = (some .length_error, b)) ∧
    (count ≤ N →
      (GwV2.resize N count b).1 = none ∧
      (GwV2.resize_fill N count ch b).1 = none ∧
      (count ≤ strLen b →
        strLen (GwV2.resize N count b).2 = count ∧
        strLen (GwV2.resize_fill N count ch b).2 = count ∧
        (∀ j, j < count → bufGet (GwV2.resize N count b).2 j = bufGet b j)) ∧
      (strLen b < count →
        strLen (GwV2.resize N count b).2 = strLen b ∧
        (ch ≠ 0 →
          strLen (GwV2.resize_fill N count ch b).2 = count ∧
          (∀ j, j < strLen b →
            bufGet (GwV2.resize_fill N count ch b).2 j = bufGet b j) ∧
          (∀ j, strLen b ≤ j → j < count →
            bufGet (GwV2.resize_fill N count ch b).2 j = ch)) ∧
        (ch = 0 → strLen (GwV2.resize_fill N count ch b).2 = strLen b))) := by
  constructor
  · intro hc
    constructor
    · simp [GwV2.resize, hc]
    · simp [GwV2.resize_fill, hc]
  · intro hc
    have hnc : ¬ count > N := by omega
    have hcount_len : count < b.length := by omega
    refine ⟨by simp [GwV2.resize, hnc], by simp [GwV2.resize_fill, hnc], ?_, ?_⟩
    · intro htr
      have h1 : (GwV2.resize N count b).2 = bufSet b count 0 := by
        simp [GwV2.resize, hnc]
      have h2 : (GwV2.resize_fill N count ch b).2 = bufSet b count 0 := by
        simp only [GwV2.resize_fill]
        rw [if_neg hnc, if_neg (by omega)]
      have hstr : strLen (bufSet b count 0) = count := by
        apply strLen_eq_of
        · intro j hj
          rw [bufGet_bufSet_ne _ _ _ _ (by omega)]
          exact bufGet_ne_zero_of_lt_strLen b j (by omega)
        · exact bufGet_bufSet_self b count 0 hcount_len
      refine ⟨by rw [h1, hstr], by rw [h2, hstr], ?_⟩
      intro j hj
      rw [h1, bufGet_bufSet_ne _ _ _ _ (by omega)]
    · intro hgr
      have h1 : (GwV2.resize N count b).2 = bufSet b count 0 := by
        simp [GwV2.resize, hnc]
      have hsz : bufGet b (strLen b) = 0 := bufGet_strLen_eq_zero b (by omega)
      have hone : strLen (bufSet b count 0) = strLen b := by
        apply strLen_eq_of
        · intro j hj
          rw [bufGet_bufSet_ne _ _ _ _ (by omega)]
          exact bufGet_ne_zero_of_lt_strLen b j hj
        · rw [bufGet_bufSet_ne _ _ _ _ (by omega)]
          exact hsz
      set b1 := writeRange b (strLen b) (List.replicate (count - strLen b) ch)
        with hb1
      have h2 : (GwV2.resize_fill N count ch b).2 = bufSet b1 count 0 := by
        simp only [GwV2.resize_fill]
        rw [if_neg hnc, if_pos (by omega)]
      have hb1len : b1.length = N + 1 := by rw [hb1, length_writeRange, hlen]
      have hb1lo : ∀ j, j < strLen b → bufGet b1 j = bufGet b j := by
        intro j hj
        rw [hb1, bufGet_writeRange_lo _ _ _ _ hj]
      have hb1mid : ∀ j, strLen b ≤ j → j < count → bufGet b1 j = ch := by
        intro j hj1 hj2
        rw [hb1, bufGet_writeRange_mid _ _ _ _ hj1
          (by rw [List.length_replicate]; omega) (by omega)]
        exact bufGet_replicate _ _ _ (by omega)
      refine ⟨by rw [h1, hone], ?_, ?_⟩
      · intro hch
        refine ⟨?_, ?_, ?_⟩
        · rw [h2]
          apply strLen_eq_of
          · intro j hj
            rw [bufGet_bufSet_ne _ _ _ _ (by omega)]
            by_cases hjs : j < strLen b
            · rw [hb1lo j hjs]
              exact bufGet_ne_zero_of_lt_strLen b j hjs
            · rw [hb1mid j (by omega) hj]
              exact hch
          · exact bufGet_bufSet_self b1 count 0 (by omega)
        · intro j hj
          rw [h2, bufGet_bufSet_ne _ _ _ _ (by omega), hb1lo j hj]
        · intro j hj1 hj2
          rw [h2, bufGet_bufSet_ne _ _ _ _ (by omega), hb1mid j hj1 hj2]
      · intro hch
        subst hch
        rw [h2]
        apply strLen_eq_of
        · intro j hj
          rw [bufGet_bufSet_ne _ _ _ _ (by omega), hb1lo j hj]
          exact bufGet_ne_zero_of_lt_strLen b j hj
        · rw [bufGet_bufSet_ne _ _ _ _ (by omega)]
          exact hb1mid (strLen b) (Nat.le_refl _) (by omega)

/-- Witness for the amended C6: truncating a capacity-13 "Hello, World!"
to 7 units gives logical size 7 ("Hello, "), and growing it with
`resize(13, 'X')` after truncation is covered by the growth clause. -/
theorem claim_C6_witness :
    strLen (GwV2.resize 13 7 hwBuf).2 = 7 ∧
    strLen (GwV2.resize_fill 13 13 88 h5Buf).2 = 13 := by
  constructor
  · exact (((claim_C6_resize_semantics 13 7 0 hwBuf (by decide) (by decide)).2
      (by decide)).2.2.1 (by decide)).1
  · exact ((((claim_C6_resize_semantics 13 13 88 h5Buf (by decide)
      (by decide)).2 (by decide)).2.2.2 (by decide)).2.1 (by decide)).1

/-- Claim C3, amended: `erase(index, count)` of the named_type.hpp
revision fails with `IndexOutOfRange` exactly when `index >= size()`
(leaving the buffer untouched; so the claimed `erase(size(), 0)` no-op is
rejected).  Otherwise its behavior depends on the copy source offset
`index + count` (computed in `size_type`): for `count <= size() - index`
the copy range is valid and it removes `count` units, shifting the
suffix left and re-terminating; for counts that wrap the offset back
into the buffer (`count >= 2^64 - index`, which includes the default
rest-of-string value `npos` whenever `index >= 1`) the overlapping
memmove-modelled copy still yields the erase-to-end result, removing
`size() - index` units; for every remaining count
(`size() - index < count < 2^64 - index`, including `npos` at
`index = 0`) the copy source lies outside `[begin(), end()]` and the
call is undefined behavior — it does not perform the claimed clamped
removal. -/
theorem claim_C3_erase_semantics (N index count : Nat) (b : List Nat)
    (hlen : b.length = N + 1) (hs : strLen b ≤ N) (hN : N < W)
    (hcount : count < W) :
    (strLen b ≤ index →
      GwV2.erase N index count b = .thrown .out_of_range b) ∧
    (index < strLen b →
      ((count ≤ strLen b - index ∨ W - index ≤ count) →
        ∃ r, GwV2.erase N index count b = .ret r ∧
          strLen r = strLen b - min count (strLen b - index) ∧
          (∀ j, j < index → bufGet r j = bufGet b j) ∧
          (∀ j, index ≤ j → j < strLen b - min count (strLen b - index) →
            bufGet r j = bufGet b (j + min count (strLen b - index)))) ∧
      (strLen b - index < count → count < W - index →
        GwV2.erase N index count b = .ub)) := by
  constructor
  · intro h
    simp only [GwV2.erase]
    rw [if_pos (by omega)]
  · intro h
    constructor
    · intro hdef
      have hni : ¬ index ≥ strLen b := by omega
      have hsrc_le : (index + count) % W ≤ strLen b := by
        rcases hdef with hc | hc
        · rw [Nat.mod_eq_of_lt (by omega)]; omega
        · have hmod : (index + count) % W = index + count - W := by
            rw [Nat.mod_eq_sub_mod (by omega), Nat.mod_eq_of_lt (by omega)]
          rw [hmod]; omega
      have hres : GwV2.erase N index count b =
          .ret (bufSet (writeRange b index
            (readRange b ((index + count) % W)
              (strLen b - (index + count) % W)))
            (strLen b - min count (strLen b - index)) 0) := by
        simp only [GwV2.erase]
        rw [if_neg hni, if_pos hsrc_le]
      set s := strLen b with hsdef
      set n := min count (s - index) with hndef
      set p := s - n with hpdef
      set src := (index + count) % W with hsrcdef
      set b1 := writeRange b index (readRange b src (s - src)) with hb1def
      have hb1len : b1.length = N + 1 := by rw [hb1def, length_writeRange, hlen]
      have hnp : n ≤ s - index := by rw [hndef]; exact Nat.min_le_right _ _
      have hchar_lo : ∀ j, j < index → bufGet (bufSet b1 p 0) j = bufGet b j := by
        intro j hj
        rw [bufGet_bufSet_ne _ _ _ _ (by omega), hb1def,
          bufGet_writeRange_lo _ _ _ _ hj]
      have hchar_mid : ∀ j, index ≤ j → j < p →
          bufGet (bufSet b1 p 0) j = bufGet b (j + n) := by
        intro j hj1 hj2
        by_cases hcnt : count < s - index
        · have hneq : n = count := by
            rw [hndef]; exact Nat.min_eq_left (Nat.le_of_lt hcnt)
          have hsrceq : src = index + count := by
            rw [hsrcdef]; exact Nat.mod_eq_of_lt (by omega)
          rw [bufGet_bufSet_ne _ _ _ _ (by omega)]
          rw [hb1def, bufGet_writeRange_mid _ _ _ _ hj1
            (by rw [length_readRange]; omega) (by omega)]
          rw [bufGet_readRange b src (s - src) (j - index) (by omega)]
          congr 1
          omega
        · exfalso
          have : n = s - index := by rw [hndef]; exact Nat.min_eq_right (by omega)
          omega
      have hstr : strLen (bufSet b1 p 0) = p := by
        apply strLen_eq_of
        · intro j hj
          by_cases hji : j < index
          · rw [hchar_lo j hji]
            exact bufGet_ne_zero_of_lt_strLen b j (by omega)
          · rw [hchar_mid j (by omega) hj]
            exact bufGet_ne_zero_of_lt_strLen b (j + n) (by omega)
        · exact bufGet_bufSet_self b1 p 0 (by omega)
      exact ⟨bufSet b1 p 0, hres, hstr, hchar_lo, hchar_mid⟩
    · intro h1 h2
      have hmodid : (index + count) % W = index + count :=
        Nat.mod_eq_of_lt (by omega)
      simp only [GwV2.erase]
      rw [if_neg (by omega), if_neg (by rw [hmodid]; omega)]

/-- Witness for the amended C3 on the example of the spec:
`"Hello, World!".erase(7, 5)` has a valid copy range (5 <= 13 - 7) and
succeeds with logical size 8 and the unit at position 7 equal to '!'
(33), i.e. the result reads "Hello, !". -/
theorem claim_C3_witness :
    ∃ r, GwV2.erase 13 7 5 hwBuf = .ret r ∧ strLen r = 8 ∧ bufGet r 7 = 33 := by
  obtain ⟨r, hr, hlen, hlo, hmid⟩ :=
    ((claim_C3_erase_semantics 13 7 5 hwBuf (by decide) (by decide)
      (by decide) (by decide)).2 (by decide)).1 (by decide)
  refine ⟨r, hr, ?_, ?_⟩
  · rw [hlen]; decide
  · rw [hmid 7 (by decide) (by decide)]; decide
